import Mathlib

/-!
Verification of the Mnemosyne memory plugin core against its specification.

The development shallowly embeds the three source files:
  * `core/tools.py` — the tag-retention engine (`remove_mnemosyne_tags`,
    `remove_system_content`), including an executable model of the regex
    `<Mnemosyne>.*?</Mnemosyne>` (DOTALL, non-greedy, leftmost match);
  * `core/commands.py` — the migration state machine of
    `init_memory_system_cmd_impl` (modelled over an abstract store-call
    trace) and the sort/truncate step of `list_records_cmd_impl`;
  * `memory_manager/context_manager.py` — the session state tracker.
-/

namespace Mnemosyne

/-! ### Regex model: `<Mnemosyne>.*?</Mnemosyne>` with `re.DOTALL`

The pattern starts with the literal open tag, lazily consumes any characters
(newlines included), and stops at the earliest close tag.  Matching is
leftmost and non-overlapping: the scanner tries each start position left to
right, and after a match resumes immediately after it.  `scan` decomposes a
character list into literal pieces (`Sum.inl`) and whole matches
(`Sum.inr`, tags included, as `re.findall` returns for a pattern without
groups). -/

def openTagL : List Char := "<Mnemosyne>".data

def closeTagL : List Char := "</Mnemosyne>".data

/-- Executable check that `p` is a prefix of `s`. -/
def isPre : List Char → List Char → Bool
  | [], _ => true
  | _ :: _, [] => false
  | a :: as, b :: bs => a == b && isPre as bs

/-- Split `s` at the first occurrence of the close tag: returns the text
before the close tag and the text after it, or `none` when the close tag
does not occur in `s`. -/
def findClose : List Char → Option (List Char × List Char)
  | [] => none
  | c :: rest =>
    if isPre closeTagL (c :: rest) then
      some ([], (c :: rest).drop closeTagL.length)
    else
      match findClose rest with
      | some (body, after) => some (c :: body, after)
      | none => none

/-- Fuelled scanner; `fuel` at least the length of the input makes it total
and keeps the definition structurally recursive (kernel-computable). -/
def scanFuel : Nat → List Char → List (Sum (List Char) (List Char))
  | 0, _ => []
  | _ + 1, [] => []
  | fuel + 1, c :: rest =>
    if isPre openTagL (c :: rest) then
      match findClose ((c :: rest).drop openTagL.length) with
      | some (body, after) =>
        Sum.inr (openTagL ++ body ++ closeTagL) :: scanFuel fuel after
      | none => Sum.inl [c] :: scanFuel fuel rest
    else
      Sum.inl [c] :: scanFuel fuel rest

/-- Decomposition of a string into literal pieces and regex matches. -/
def scan (s : List Char) : List (Sum (List Char) (List Char)) :=
  scanFuel s.length s

/-- Join a scan decomposition back into text, applying `f` to each match. -/
def mapJoin (f : List Char → List Char)
    (pieces : List (Sum (List Char) (List Char))) : List Char :=
  (pieces.map (fun x =>
    match x with
    | Sum.inl cs => cs
    | Sum.inr b => f b)).flatten

/-- Alternating view of a scan decomposition: the leading literal text, then
a list of pairs (match text, literal text following that match). -/
def altOf : List (Sum (List Char) (List Char)) →
    List Char × List (List Char × List Char)
  | [] => ([], [])
  | Sum.inl cs :: rest => (cs ++ (altOf rest).1, (altOf rest).2)
  | Sum.inr b :: rest => ([], (b, (altOf rest).1) :: (altOf rest).2)

/-- Alternating decomposition of a string under the Mnemosyne regex. -/
def altParts (s : List Char) : List Char × List (List Char × List Char) :=
  altOf (scan s)

/-- Model of `compiled_regex.sub` with a replacement function. -/
def regexSub (f : String → String) (s : String) : String :=
  ⟨mapJoin (fun b => (f ⟨b⟩).data) (scan s.data)⟩

/-- Model of `compiled_regex.findall`: all matched blocks, in order. -/
def findallBlocks (s : String) : List String :=
  (scan s.data).filterMap (fun x =>
    match x with
    | Sum.inr b => some (⟨b⟩ : String)
    | Sum.inl _ => none)

/-- Model of `compiled_regex.search` as a Boolean. -/
def regexSearch (s : String) : Bool :=
  (scan s.data).any (fun x =>
    match x with
    | Sum.inr _ => true
    | Sum.inl _ => false)

/-! ### Data model of LLM context messages

A Python context entry is a `dict` with at least `role` and `content` keys
(`content` being a plain string, a multi-part list payload, or some other
object), possibly carrying further keys such as `name`; or it is not a dict
at all.  Structured payloads are opaque to the tag engine, so they are
carried as atoms identified by a number. -/

inductive Content where
  | text : String → Content
  | parts : Nat → Content
  | other : Nat → Content
deriving DecidableEq, Repr

structure Message where
  role : String
  content : Content
  extra : List (String × String)
deriving DecidableEq, Repr

inductive Item where
  | msg : Message → Item
  | nondict : Nat → Item
deriving DecidableEq, Repr

/-! ### `remove_mnemosyne_tags` (src/core/tools.py lines 48–121) -/

/-- Blocks found in one context entry: user-role dict entries with string
content are scanned, everything else contributes nothing (lines 77–83). -/
def userTextBlocks : Item → List String
  | Item.msg m =>
    if m.role == "user" then
      match m.content with
      | Content.text t => findallBlocks t
      | _ => []
    else []
  | Item.nondict _ => []

/-- The ordered list `all_mnemosyne_blocks` collected over all entries. -/
def allMnemosyneBlocks (contents : List Item) : List String :=
  (contents.map userTextBlocks).flatten

/-- The `blocks_to_keep` values: the trailing `K`-sized slice
`all_mnemosyne_blocks[-K:]` (membership below is set membership). -/
def keepOf (contents : List Item) (contexts_memory_len : Int) : List String :=
  let L := allMnemosyneBlocks contents
  L.drop (L.length - contexts_memory_len.toNat)

/-- Per-entry transform of the `contexts_memory_len == 0` branch
(lines 63–75): user entries with string content are rebuilt with all matches
erased; every other entry is appended unchanged. -/
def processZero : Item → Item
  | Item.msg m =>
    if m.role == "user" then
      match m.content with
      | Content.text t =>
        Item.msg ⟨"user", Content.text (regexSub (fun _ => "") t), []⟩
      | _ => Item.msg m
    else Item.msg m
  | Item.nondict n => Item.nondict n

/-- Per-entry transform of the `contexts_memory_len > 0` branch
(lines 91–119): list payloads are rebuilt as a fresh role/content dict,
string content is rewritten through `replace_logic` only when the regex
finds a match, and everything else is appended unchanged. -/
def processPos (keep : List String) : Item → Item
  | Item.msg m =>
    if m.role == "user" then
      match m.content with
      | Content.parts p => Item.msg ⟨"user", Content.parts p, []⟩
      | Content.text t =>
        if regexSearch t then
          Item.msg ⟨"user",
            Content.text (regexSub (fun b => if keep.contains b then b else "") t), []⟩
        else Item.msg m
      | Content.other _ => Item.msg m
    else Item.msg m
  | Item.nondict n => Item.nondict n

/-- Translation of `remove_mnemosyne_tags` (lines 48–121). -/
def remove_mnemosyne_tags (contents : List Item)
    (contexts_memory_len : Int) : List Item :=
  if contexts_memory_len < 0 then contents
  else if contexts_memory_len = 0 then contents.map processZero
  else contents.map (processPos (keepOf contents contexts_memory_len))

/-! ### Specification-side characterisations of the retention transform

These restate the transform through the alternating decomposition
`altParts`: the literal text around the matched blocks is kept verbatim in
place and each matched block is, as a whole, either kept verbatim or
replaced by the empty string.  The theorems below connect the translated
code to these characterisations. -/

/-- Specification-side text for the `K == 0` policy: the input text with
every matched block deleted and all surrounding literal text untouched. -/
def specZeroText (t : String) : String :=
  ⟨(altParts t.data).1 ++ ((altParts t.data).2.map (fun p => p.2)).flatten⟩

/-- Specification-side per-entry transform for `K == 0`: user entries with
plain-text content have their matched blocks deleted; every other entry —
in particular every non-user entry — is identical to the input. -/
def specZero : Item → Item
  | Item.msg m =>
    if m.role == "user" then
      match m.content with
      | Content.text t => Item.msg ⟨"user", Content.text (specZeroText t), []⟩
      | _ => Item.msg m
    else Item.msg m
  | Item.nondict n => Item.nondict n

/-- Specification-side text for the `K > 0` policy: each matched block is
kept verbatim in place when its text belongs to the keep set and deleted
otherwise; surrounding literal text is untouched. -/
def specKeepText (keep : List String) (t : String) : String :=
  ⟨(altParts t.data).1 ++
    ((altParts t.data).2.map
      (fun p => (if keep.contains (⟨p.1⟩ : String) then p.1 else []) ++ p.2)).flatten⟩

/-- Specification-side per-entry transform for `K > 0`: list payloads are
rebuilt as a fresh role/content dict with the payload untouched, plain-text
content containing at least one block is rewritten by the keep set, and
every other entry is identical to the input. -/
def specTransform (keep : List String) : Item → Item
  | Item.msg m =>
    if m.role == "user" then
      match m.content with
      | Content.parts p => Item.msg ⟨"user", Content.parts p, []⟩
      | Content.text t =>
        if findallBlocks t = [] then Item.msg m
        else Item.msg ⟨"user", Content.text (specKeepText keep t), []⟩
      | Content.other _ => Item.msg m
    else Item.msg m
  | Item.nondict n => Item.nondict n

/-- Distinct block texts ordered by their most recent appearance: keeps the
last occurrence of each text value.  Used to formalise the claim wording
"the K most-recently-appearing distinct block texts". -/
def dedupLast : List String → List String
  | [] => []
  | a :: rest => if rest.contains a then dedupLast rest else a :: dedupLast rest

/-- The keep set the claim wording prescribes: the `K` most-recently
appearing distinct block texts. -/
def claimKeepOf (contents : List Item) (k : Int) : List String :=
  let D := dedupLast (allMnemosyneBlocks contents)
  D.drop (D.length - k.toNat)

/-! ### `remove_system_content` (src/core/tools.py lines 155–183) -/

/-- The Python argument may fail the `isinstance(contents, list)` guard;
non-list arguments are carried as atoms. -/
inductive ContentsArg where
  | ofList : List Item → ContentsArg
  | notList : Nat → ContentsArg
deriving DecidableEq, Repr

def isSystemItem : Item → Bool
  | Item.msg m => m.role == "system"
  | Item.nondict _ => false

/-- Translation of `remove_system_content` (lines 155–183): non-list input
yields `[]`; a negative budget returns the list unchanged; otherwise the
oldest system messages beyond the budget are removed by index, preserving
the order of the survivors. -/
def remove_system_content (contents : ContentsArg)
    (contexts_memory_len : Int) : List Item :=
  match contents with
  | ContentsArg.notList _ => []
  | ContentsArg.ofList l =>
    if contexts_memory_len < 0 then l
    else
      let system_message_indices :=
        (l.enum.filter (fun p => isSystemItem p.2)).map (fun p => p.1)
      let num_system_messages := system_message_indices.length
      let indices_to_remove :=
        if contexts_memory_len < (num_system_messages : Int) then
          system_message_indices.take
            (num_system_messages - contexts_memory_len.toNat)
        else []
      (l.enum.filter (fun p => ¬ indices_to_remove.contains p.1)).map
        (fun p => p.2)

/-! ### Session state tracker (src/memory_manager/context_manager.py)

`time.time()` is modelled by passing the current timestamp explicitly; the
`conversations` dict is an association list keyed by session id.  The
`event` metadata stored by `init_conv` plays no role in the tracked claims
and is omitted from the per-session record. -/

structure SessionState where
  last_summary_time : Int
deriving DecidableEq, Repr

structure ConversationContextManager where
  conversations : List (String × SessionState)
deriving DecidableEq, Repr

/-- Translation of `ConversationContextManager.get_summary_time`
(lines 60–68). -/
def get_summary_time (m : ConversationContextManager) (session_id : String) :
    Int :=
  match m.conversations.lookup session_id with
  | some st => st.last_summary_time
  | none => 0

/-- Translation of `ConversationContextManager.update_summary_time`
(lines 70–76); `now` stands for `time.time()`. -/
def update_summary_time (m : ConversationContextManager) (session_id : String)
    (now : Int) : ConversationContextManager :=
  if (m.conversations.lookup session_id).isSome then
    ⟨m.conversations.map
      (fun p => if p.1 = session_id then (p.1, SessionState.mk now) else p)⟩
  else m

/-! ### Listing service (src/core/commands.py lines 236–252) -/

/-- Modelled from the spec: `MAX_TOTAL_FETCH_RECORDS` lives in
`core/constants.py`, which is not part of the provided sources; the spec
describes it only as "a large fixed ceiling" on fetched records. -/
def MAX_TOTAL_FETCH_RECORDS : Nat := 10000

/-- A fetched memory record; `create_time` is `none` when the field is
missing or `None`. -/
structure MemRecord where
  create_time : Option Int
  content : String
  memory_id : Nat
deriving DecidableEq, Repr

/-- Sort key of line 239: `x.get("create_time", 0) or 0` — a missing or
`None` (falsy) timestamp is treated as epoch 0 and never raises. -/
def sortKey (r : MemRecord) : Int :=
  (r.create_time).getD 0

/-- Descending-by-`create_time` order used by `reverse=True`. -/
def byCreateTimeDesc (a b : MemRecord) : Prop :=
  sortKey b ≤ sortKey a

instance : DecidableRel byCreateTimeDesc := fun a b =>
  inferInstanceAs (Decidable (sortKey b ≤ sortKey a))

instance : IsTotal MemRecord byCreateTimeDesc :=
  ⟨fun a b => Int.le_total (sortKey b) (sortKey a)⟩

instance : IsTrans MemRecord byCreateTimeDesc :=
  ⟨fun _ _ _ h1 h2 => le_trans h2 h1⟩

/-- Translation of lines 236–252: Python's `list.sort` with a key and
`reverse=True` is a stable descending sort (a stable sort is a unique
function of the comparator, here realised by insertion sort), after which
the first `limit` records are displayed. -/
def list_latest (fetched_records : List MemRecord) (limit : Nat) :
    List MemRecord :=
  (List.insertionSort byCreateTimeDesc fetched_records).take limit

/-! ### Migration engine (src/core/commands.py lines 422–725)

The command's interactions with the Milvus store, the embedding provider
and the filesystem are modelled by an environment of outcomes, and the
store-mutating calls the run performs are collected in a trace.  Read-only
calls (existence checks, schema reads, export queries) do not mutate the
store and are not traced. -/

/-- Store-mutating calls issued by the migration run. -/
inductive StoreCall where
  | drop : StoreCall
  | create : StoreCall
  | insert : StoreCall
  | flush : StoreCall
deriving DecidableEq, Repr

/-- An exported record as the re-embedding loop sees it (lines 642–686);
only the `content` field decides the loop's control flow. -/
structure MigRecord where
  content : String
deriving DecidableEq, Repr

/-- Outcome of handling one exported record: the embedding call fails or
returns an empty embedding (or the loop body raises), the insert is issued
but reports failure, or the insert succeeds. -/
inductive RecOutcome where
  | embedFail : RecOutcome
  | insertFail : RecOutcome
  | insertOk : RecOutcome
deriving DecidableEq, Repr

structure ReembedResult where
  success_count : Nat
  fail_count : Nat
  calls : List StoreCall
deriving DecidableEq, Repr

/-- The re-embedding loop of lines 639–686: records with empty content are
skipped via `continue` before any counter is touched; embedding failures
count as failures without an insert call; insert calls succeed or fail. -/
def reembed (outcome : Nat → RecOutcome) :
    Nat → List MigRecord → ReembedResult
  | _, [] => ⟨0, 0, []⟩
  | i, r :: rest =>
    let rr := reembed outcome (i + 1) rest
    if r.content = "" then rr
    else
      match outcome i with
      | RecOutcome.embedFail => ⟨rr.success_count, rr.fail_count + 1, rr.calls⟩
      | RecOutcome.insertFail =>
        ⟨rr.success_count, rr.fail_count + 1, StoreCall.insert :: rr.calls⟩
      | RecOutcome.insertOk =>
        ⟨rr.success_count + 1, rr.fail_count, StoreCall.insert :: rr.calls⟩

/-- First schema field named `embedding`, if any, with its `dim` parameter
(lines 484–492). -/
def lookupEmbeddingDim : List (String × Option Int) → Option (Option Int)
  | [] => none
  | (name, dim) :: rest =>
    if name = "embedding" then some dim else lookupEmbeddingDim rest

/-- Environment of external outcomes for one `memory init` run. -/
structure Env where
  providerReady : Bool
  currentDim : Option Int
  hasCollection : Bool
  getCollectionOk : Bool
  schemaFields : List (String × Option Int)
  forceFlag : Bool
  pluginDataDirOk : Bool
  mkdirOk : Bool
  exportOk : Bool
  records : List MigRecord
  backupOk : Bool
  dropOk : Bool
  createOk : Bool
  outcome : Nat → RecOutcome

/-- Result reported by one `memory init` run. -/
inductive MigResult where
  | notReady : MigResult
  | dimUnavailable : MigResult
  | badDim : MigResult
  | confirmRequired : MigResult
  | noDataDir : MigResult
  | mkdirFail : MigResult
  | exportFail : MigResult
  | backupFail : MigResult
  | dropFail : MigResult
  | createFail : MigResult
  | migrated : Nat → Nat → MigResult
  | migratedNoData : MigResult
  | noMigrationNeeded : MigResult
  | createdNew : MigResult
deriving DecidableEq, Repr

/-- Translation of `init_memory_system_cmd_impl` (lines 422–725) over the
outcome environment, paired with the trace of store-mutating calls.
Collection creation goes through `initialization.setup_milvus_collection_and_index`,
whose body is not part of the provided sources; its effect — one create of
the collection with the new width, fatal on failure — is modelled from the
spec (step 6 of the migration state machine). -/
def init_memory_system (env : Env) : MigResult × List StoreCall :=
  if env.providerReady = false then (MigResult.notReady, [])
  else
    match env.currentDim with
    | none => (MigResult.dimUnavailable, [])
    | some d =>
      if d ≤ 0 then (MigResult.badDim, [])
      else if env.hasCollection = false then
        (MigResult.createdNew, [StoreCall.create])
      else
        let old_dim :=
          if env.getCollectionOk then lookupEmbeddingDim env.schemaFields
          else none
        let needs_migration :=
          match old_dim with
          | some od => decide (od ≠ some d)
          | none => false
        if needs_migration = false then (MigResult.noMigrationNeeded, [])
        else if env.forceFlag = false then (MigResult.confirmRequired, [])
        else if env.pluginDataDirOk = false then (MigResult.noDataDir, [])
        else if env.mkdirOk = false then (MigResult.mkdirFail, [])
        else if env.exportOk = false then (MigResult.exportFail, [])
        else if env.backupOk = false then (MigResult.backupFail, [])
        else if env.dropOk = false then (MigResult.dropFail, [StoreCall.drop])
        else if env.createOk = false then
          (MigResult.createFail, [StoreCall.drop, StoreCall.create])
        else if env.records = [] then
          (MigResult.migratedNoData, [StoreCall.drop, StoreCall.create])
        else
          let L := reembed env.outcome 0 env.records
          (MigResult.migrated L.success_count L.fail_count,
            [StoreCall.drop, StoreCall.create] ++ L.calls ++ [StoreCall.flush])

/-! ### Concrete fixtures used by witnesses and counterexamples -/

/-- Example message sequence from §8 of the spec: blocks A, B, C in user
messages, with an assistant message in between. -/
def exSpec : List Item :=
  [Item.msg ⟨"user", Content.text "<Mnemosyne>A</Mnemosyne> hi", []⟩,
   Item.msg ⟨"assistant", Content.text "ok", []⟩,
   Item.msg ⟨"user",
     Content.text "<Mnemosyne>B</Mnemosyne> <Mnemosyne>C</Mnemosyne> bye", []⟩]

/-- One user message whose blocks are, in order, A, B, B: the trailing
2-slice of occurrences is [B, B], holding only one distinct text. -/
def exDup : List Item :=
  [Item.msg ⟨"user",
    Content.text
      "<Mnemosyne>A</Mnemosyne><Mnemosyne>B</Mnemosyne><Mnemosyne>B</Mnemosyne>",
    []⟩]

/-- One user message in which erasing the single matched block rejoins the
surrounding delimiter fragments into a fresh block. -/
def exRejoin : List Item :=
  [Item.msg ⟨"user",
    Content.text "<Mnemo<Mnemosyne>x</Mnemosyne>syne>z</Mnemosyne>", []⟩]

/-- One user message with string content, one tagged block and an extra
`name` key. -/
def exKeys : List Item :=
  [Item.msg ⟨"user", Content.text "<Mnemosyne>a</Mnemosyne>",
    [("name", "bob")]⟩]

/-- One user message with a structured multi-part payload and an extra
`name` key. -/
def exParts : List Item :=
  [Item.msg ⟨"user", Content.parts 0, [("name", "alice")]⟩]

/-- Migration environment in which every external call succeeds except that
record 1 fails to re-embed. -/
def envMigW : Env :=
  { providerReady := true, currentDim := some 4, hasCollection := true,
    getCollectionOk := true, schemaFields := [("embedding", some 3)],
    forceFlag := true, pluginDataDirOk := true, mkdirOk := true,
    exportOk := true, records := [⟨"alpha"⟩, ⟨"beta"⟩], backupOk := true,
    dropOk := true, createOk := true,
    outcome := fun i => if i = 0 then RecOutcome.insertOk
      else RecOutcome.embedFail }

/-- Migration environment whose only exported record has empty content. -/
def envMigEmpty : Env :=
  { providerReady := true, currentDim := some 4, hasCollection := true,
    getCollectionOk := true, schemaFields := [("embedding", some 3)],
    forceFlag := true, pluginDataDirOk := true, mkdirOk := true,
    exportOk := true, records := [⟨""⟩], backupOk := true,
    dropOk := true, createOk := true,
    outcome := fun _ => RecOutcome.insertOk }

/-- Migration environment in which writing the backup artifact fails. -/
def envBackupFail : Env :=
  { providerReady := true, currentDim := some 4, hasCollection := true,
    getCollectionOk := true, schemaFields := [("embedding", some 3)],
    forceFlag := true, pluginDataDirOk := true, mkdirOk := true,
    exportOk := true, records := [⟨"alpha"⟩], backupOk := false,
    dropOk := true, createOk := true,
    outcome := fun _ => RecOutcome.insertOk }

/-- Migration environment in which the stored width already matches. -/
def envDimsEqual : Env :=
  { providerReady := true, currentDim := some 4, hasCollection := true,
    getCollectionOk := true, schemaFields := [("embedding", some 4)],
    forceFlag := false, pluginDataDirOk := true, mkdirOk := true,
    exportOk := true, records := [⟨"alpha"⟩], backupOk := true,
    dropOk := true, createOk := true,
    outcome := fun _ => RecOutcome.insertOk }

/-! ### Scanner lemmas -/

theorem isPre_append : ∀ (p s : List Char), isPre p s = true →
    p ++ s.drop p.length = s := by
  intro p
  induction p with
  | nil => intro s _; simp
  | cons a as ih =>
    intro s h
    cases s with
    | nil => simp [isPre] at h
    | cons b bs =>
      simp only [isPre, Bool.and_eq_true, beq_iff_eq] at h
      obtain ⟨rfl, h2⟩ := h
      simp only [List.length_cons, List.drop_succ_cons, List.cons_append,
        List.cons.injEq, true_and]
      exact ih bs h2

theorem findClose_append : ∀ (s body after : List Char),
    findClose s = some (body, after) → body ++ closeTagL ++ after = s := by
  intro s
  induction s with
  | nil => intro body after h; simp [findClose] at h
  | cons c rest ih =>
    intro body after h
    rw [findClose] at h
    split at h
    · rename_i hpre
      simp only [Option.some.injEq, Prod.mk.injEq] at h
      obtain ⟨h1, h2⟩ := h
      subst h1; subst h2
      simpa using isPre_append closeTagL (c :: rest) hpre
    · rename_i hpre
      split at h
      · rename_i body2 after2 heq
        simp only [Option.some.injEq, Prod.mk.injEq] at h
        obtain ⟨h1, h2⟩ := h
        subst h1; subst h2
        simpa using ih body2 after2 heq
      · exact absurd h (by simp)

theorem findClose_after_length {s body after : List Char}
    (h : findClose s = some (body, after)) :
    after.length + closeTagL.length ≤ s.length := by
  have h2 := findClose_append s body after h
  have h3 : (body ++ closeTagL ++ after).length = s.length := by rw [h2]
  simp only [List.length_append] at h3
  omega

theorem scanFuel_nil : ∀ fuel, scanFuel fuel [] = [] := by
  intro fuel; cases fuel <;> rfl

theorem scanFuel_congr : ∀ (n f1 f2 : Nat) (s : List Char),
    s.length ≤ n → s.length ≤ f1 → s.length ≤ f2 →
    scanFuel f1 s = scanFuel f2 s := by
  intro n
  induction n with
  | zero =>
    intro f1 f2 s h _ _
    have hs : s = [] := List.length_eq_zero.mp (Nat.le_zero.mp h)
    subst hs
    rw [scanFuel_nil, scanFuel_nil]
  | succ n ih =>
    intro f1 f2 s hn h1 h2
    cases s with
    | nil => rw [scanFuel_nil, scanFuel_nil]
    | cons c rest =>
      simp only [List.length_cons] at hn h1 h2
      cases f1 with
      | zero => omega
      | succ g1 =>
        cases f2 with
        | zero => omega
        | succ g2 =>
          simp only [scanFuel]
          split
          · split
            · rename_i body after heq
              have hlen := findClose_after_length heq
              have hdl : ((c :: rest).drop openTagL.length).length
                  = rest.length + 1 - openTagL.length := by
                simp [List.length_drop]
              have hcl : closeTagL.length = 12 := rfl
              have hol : openTagL.length = 11 := rfl
              rw [ih g1 g2 after (by omega) (by omega) (by omega)]
            · rw [ih g1 g2 rest (by omega) (by omega) (by omega)]
          · rw [ih g1 g2 rest (by omega) (by omega) (by omega)]

theorem scan_cons_block {c : Char} {rest body after : List Char}
    (h1 : isPre openTagL (c :: rest) = true)
    (h2 : findClose ((c :: rest).drop openTagL.length) = some (body, after)) :
    scan (c :: rest)
      = Sum.inr (openTagL ++ body ++ closeTagL) :: scan after := by
  have hlen := findClose_after_length h2
  have hdl : ((c :: rest).drop openTagL.length).length
      = rest.length + 1 - openTagL.length := by
    simp [List.length_drop]
  have hcl : closeTagL.length = 12 := rfl
  have hol : openTagL.length = 11 := rfl
  show scanFuel (c :: rest).length (c :: rest) = _
  simp only [List.length_cons, scanFuel, h1, if_true, h2]
  rw [scanFuel_congr rest.length rest.length after.length after
    (by omega) (by omega) (le_refl _)]
  rfl

theorem scan_cons_noclose {c : Char} {rest : List Char}
    (h1 : isPre openTagL (c :: rest) = true)
    (h2 : findClose ((c :: rest).drop openTagL.length) = none) :
    scan (c :: rest) = Sum.inl [c] :: scan rest := by
  show scanFuel (c :: rest).length (c :: rest) = _
  simp only [List.length_cons, scanFuel, h1, if_true, h2]
  rfl

theorem scan_cons_lit {c : Char} {rest : List Char}
    (h1 : isPre openTagL (c :: rest) = false) :
    scan (c :: rest) = Sum.inl [c] :: scan rest := by
  show scanFuel (c :: rest).length (c :: rest) = _
  simp only [List.length_cons, scanFuel, h1]
  rfl

theorem mapJoin_nil (f : List Char → List Char) : mapJoin f [] = [] := rfl

theorem mapJoin_cons (f : List Char → List Char)
    (x : Sum (List Char) (List Char))
    (rest : List (Sum (List Char) (List Char))) :
    mapJoin f (x :: rest)
      = (match x with
         | Sum.inl cs => cs
         | Sum.inr b => f b) ++ mapJoin f rest := by
  simp [mapJoin]

theorem scan_join_aux : ∀ (n : Nat) (s : List Char), s.length ≤ n →
    mapJoin (fun b => b) (scan s) = s := by
  intro n
  induction n with
  | zero =>
    intro s h
    have hs : s = [] := List.length_eq_zero.mp (Nat.le_zero.mp h)
    subst hs; rfl
  | succ n ih =>
    intro s h
    cases s with
    | nil => rfl
    | cons c rest =>
      simp only [List.length_cons] at h
      by_cases h1 : isPre openTagL (c :: rest) = true
      · cases h2 : findClose ((c :: rest).drop openTagL.length) with
        | some ba =>
          obtain ⟨body, after⟩ := ba
          rw [scan_cons_block h1 h2, mapJoin_cons]
          have hlen := findClose_after_length h2
          have hdl : ((c :: rest).drop openTagL.length).length
              = rest.length + 1 - openTagL.length := by
            simp [List.length_drop]
          have hcl : closeTagL.length = 12 := rfl
          have hol : openTagL.length = 11 := rfl
          rw [ih after (by omega)]
          have hfc := findClose_append _ _ _ h2
          have hip := isPre_append openTagL (c :: rest) h1
          calc (openTagL ++ body ++ closeTagL) ++ after
              = openTagL ++ (body ++ closeTagL ++ after) := by
                simp [List.append_assoc]
            _ = openTagL ++ (c :: rest).drop openTagL.length := by rw [hfc]
            _ = c :: rest := hip
        | none =>
          rw [scan_cons_noclose h1 h2, mapJoin_cons, ih rest (by omega)]
          rfl
      · replace h1 : isPre openTagL (c :: rest) = false :=
          Bool.not_eq_true _ ▸ Bool.of_not_eq_true h1
        rw [scan_cons_lit h1, mapJoin_cons, ih rest (by omega)]
        rfl

/-- Reassembling the scan of a string with every match kept verbatim gives
back the string. -/
theorem scan_join (s : List Char) : mapJoin (fun b => b) (scan s) = s :=
  scan_join_aux s.length s (le_refl _)

/-- `mapJoin` through the alternating view: the literal text is emitted
verbatim and `f` acts on each matched block individually. -/
theorem mapJoin_alt (f : List Char → List Char) :
    ∀ pieces, mapJoin f pieces
      = (altOf pieces).1
        ++ ((altOf pieces).2.map (fun p => f p.1 ++ p.2)).flatten := by
  intro pieces
  induction pieces with
  | nil => rfl
  | cons x rest ih =>
    cases x with
    | inl cs => simp [mapJoin_cons, altOf, ih, List.append_assoc]
    | inr b => simp [mapJoin_cons, altOf, ih, List.append_assoc]

/-- The alternating decomposition of a string reconstructs the string when
every block is kept in place. -/
theorem altParts_recompose (s : List Char) :
    (altParts s).1 ++ ((altParts s).2.map (fun p => p.1 ++ p.2)).flatten
      = s := by
  have h := mapJoin_alt (fun b => b) (scan s)
  rw [scan_join s] at h
  exact h.symm

theorem regexSearch_iff (s : String) :
    regexSearch s = true ↔ findallBlocks s ≠ [] := by
  unfold regexSearch findallBlocks
  induction scan s.data with
  | nil => simp
  | cons x rest ih =>
    cases x with
    | inl cs => simp only [List.any_cons, List.filterMap_cons]; exact ih
    | inr b => simp

theorem mapJoin_congr (f g : List Char → List Char) (h : ∀ b, f b = g b) :
    ∀ pieces, mapJoin f pieces = mapJoin g pieces := by
  intro pieces
  induction pieces with
  | nil => rfl
  | cons x rest ih =>
    cases x with
    | inl cs => simp [mapJoin_cons, ih]
    | inr b => simp [mapJoin_cons, ih, h b]

/-- The code's `re.sub` with `replace_logic` agrees with the
specification-side keep/erase description of the text. -/
theorem regexSub_keep_eq (keep : List String) (t : String) :
    regexSub (fun b => if keep.contains b then b else "") t
      = specKeepText keep t := by
  unfold regexSub specKeepText altParts
  congr 1
  have hfun : ∀ b : List Char,
      ((if keep.contains (⟨b⟩ : String) then (⟨b⟩ : String) else "").data)
        = (if keep.contains (⟨b⟩ : String) then b else []) := by
    intro b
    split
    · rfl
    · rfl
  exact (mapJoin_congr _ _ hfun (scan t.data)).trans
    (mapJoin_alt _ (scan t.data))

/-- The code's `re.sub` with the empty replacement agrees with the
specification-side block-deletion description of the text. -/
theorem regexSub_erase_eq (t : String) :
    regexSub (fun _ => "") t = specZeroText t := by
  unfold regexSub specZeroText altParts
  congr 1
  refine (mapJoin_congr _ (fun _ => ([] : List Char)) (fun _ => rfl)
    (scan t.data)).trans ?_
  rw [mapJoin_alt]
  simp

theorem processZero_eq (it : Item) : processZero it = specZero it := by
  cases it with
  | nondict n => rfl
  | msg m =>
    obtain ⟨role, content, extra⟩ := m
    cases content with
    | text t => simp [processZero, specZero, regexSub_erase_eq]
    | parts p => rfl
    | other o => rfl

theorem processPos_eq (keep : List String) (it : Item) :
    processPos keep it = specTransform keep it := by
  cases it with
  | nondict n => rfl
  | msg m =>
    obtain ⟨role, content, extra⟩ := m
    cases content with
    | parts p => rfl
    | other o => rfl
    | text t =>
      by_cases hs : regexSearch t = true
      · have hb := (regexSearch_iff t).mp hs
        simp only [processPos, specTransform, hs, if_true, if_neg hb]
        rw [regexSub_keep_eq]
      · have hb : findallBlocks t = [] := by
          by_contra hne
          exact hs ((regexSearch_iff t).mpr hne)
        simp [processPos, specTransform, hs, hb]

/-! ### Re-embedding loop lemmas -/

theorem reembed_counts (outcome : Nat → RecOutcome) :
    ∀ (i : Nat) (rs : List MigRecord),
      (reembed outcome i rs).success_count + (reembed outcome i rs).fail_count
        = (rs.filter (fun r => !(r.content == ""))).length := by
  intro i rs
  induction rs generalizing i with
  | nil => rfl
  | cons r rest ih =>
    simp only [reembed]
    by_cases hc : r.content = ""
    · simp [hc, List.filter_cons, ih (i + 1)]
    · cases ho : outcome i <;>
        simp [hc, ho, List.filter_cons, ← ih (i + 1)] <;> omega

theorem reembed_flush (outcome : Nat → RecOutcome) :
    ∀ (i : Nat) (rs : List MigRecord),
      (reembed outcome i rs).calls.count StoreCall.flush = 0 := by
  intro i rs
  induction rs generalizing i with
  | nil => rfl
  | cons r rest ih =>
    simp only [reembed]
    by_cases hc : r.content = ""
    · simp [hc, ih (i + 1)]
    · cases ho : outcome i <;> simp [hc, ho, List.count_cons, ih (i + 1)]

/-! ### Claim theorems -/

/-- C1 (amended): for every retention budget `K > 0` over a message
sequence whose user messages hold more than `K` tagged blocks in their
plain-text content, `remove_mnemosyne_tags` keeps exactly the block texts
occurring among the trailing `K` block occurrences — every occurrence of a
kept text verbatim in its original position, every other occurrence
replaced by the empty string, surrounding text untouched — and the
trailing slice has exactly `K` occurrences.  Amended from the claim's
"the K most-recently-appearing distinct block texts": the keep set is the
set of texts of the last `K` occurrences, which holds fewer than `K`
distinct texts whenever those occurrences repeat a text. -/
theorem remove_mnemosyne_tags_keeps_trailing_occurrence_texts
    (contents : List Item) (K : Int) (hK : 0 < K)
    (hMore : K.toNat < (allMnemosyneBlocks contents).length) :
    remove_mnemosyne_tags contents K
      = contents.map (specTransform (keepOf contents K)) ∧
    (keepOf contents K).length = K.toNat := by
  constructor
  · unfold remove_mnemosyne_tags
    rw [if_neg (by omega), if_neg (by omega)]
    have hfun : processPos (keepOf contents K)
        = specTransform (keepOf contents K) :=
      funext (processPos_eq (keepOf contents K))
    rw [hfun]
  · simp only [keepOf, List.length_drop]
    omega

/-- Witness for C1's amended theorem at the §8 example with `K = 1`. -/
theorem remove_mnemosyne_tags_keeps_trailing_occurrence_texts_witness :
    (0 : Int) < 1 ∧ (1 : Int).toNat < (allMnemosyneBlocks exSpec).length ∧
    (remove_mnemosyne_tags exSpec 1
        = exSpec.map (specTransform (keepOf exSpec 1)) ∧
      (keepOf exSpec 1).length = (1 : Int).toNat) :=
  ⟨by decide, by decide,
    remove_mnemosyne_tags_keeps_trailing_occurrence_texts exSpec 1
      (by decide) (by decide)⟩

/-- Counterexample to C1 as stated: over blocks [A, B, B] with `K = 2` the
two most-recently-appearing distinct block texts are A and B, yet the code
erases every occurrence of A (its keep set is the texts of the trailing two
occurrences, the singleton B). -/
theorem remove_mnemosyne_tags_distinct_recent_cex :
    (allMnemosyneBlocks exDup).length = 3 ∧
    claimKeepOf exDup 2
      = ["<Mnemosyne>A</Mnemosyne>", "<Mnemosyne>B</Mnemosyne>"] ∧
    remove_mnemosyne_tags exDup 2
      = [Item.msg ⟨"user",
          Content.text "<Mnemosyne>B</Mnemosyne><Mnemosyne>B</Mnemosyne>",
          []⟩] ∧
    ¬ "<Mnemosyne>A</Mnemosyne>"
        ∈ findallBlocks "<Mnemosyne>B</Mnemosyne><Mnemosyne>B</Mnemosyne>" :=
  ⟨rfl, rfl, rfl, by decide⟩

/-- C7 (amended): for `K == 0` every user message with plain-text content
is rewritten to the input text with every matched block deleted and all
surrounding literal text kept verbatim in place, and every other entry —
in particular every non-user message — is byte-identical to the input.
Amended from the claim's "zero occurrences of the delimiter remain": the
deletion is a single pass, so delimiter fragments surrounding deleted
blocks can rejoin into fresh delimiter occurrences in the output. -/
theorem remove_tags_zero_erases_matched_blocks (contents : List Item) :
    remove_mnemosyne_tags contents 0 = contents.map specZero ∧
    (∀ m : Message, ¬ m.role = "user" → specZero (Item.msg m) = Item.msg m) ∧
    ∀ n : Nat, specZero (Item.nondict n) = Item.nondict n := by
  refine ⟨?_, ?_, fun n => rfl⟩
  · unfold remove_mnemosyne_tags
    rw [if_neg (by omega), if_pos rfl]
    have hfun : processZero = specZero := funext processZero_eq
    rw [hfun]
  · intro m hm
    unfold specZero
    simp [hm]

/-- Witness for C7's amended theorem: a non-user message is untouched. -/
theorem remove_tags_zero_erases_matched_blocks_witness :
    ¬ (Message.mk "assistant" (Content.text "ok") []).role = "user" ∧
    specZero (Item.msg ⟨"assistant", Content.text "ok", []⟩)
      = Item.msg ⟨"assistant", Content.text "ok", []⟩ :=
  ⟨by decide, (remove_tags_zero_erases_matched_blocks []).2.1 _ (by decide)⟩

/-- Counterexample to C7 as stated: erasing the one matched block of
`exRejoin` rejoins the surrounding delimiter fragments, so the `K = 0`
output still contains a full `<Mnemosyne>...</Mnemosyne>` occurrence in a
user message's plain-text content. -/
theorem remove_tags_zero_delimiter_cex :
    remove_mnemosyne_tags exRejoin 0
      = [Item.msg ⟨"user", Content.text "<Mnemosyne>z</Mnemosyne>", []⟩] ∧
    findallBlocks "<Mnemosyne>z</Mnemosyne>" = ["<Mnemosyne>z</Mnemosyne>"] :=
  ⟨rfl, rfl⟩

/-- C3 (amended): a user message whose content is a structured multi-part
payload keeps its role and its content value unmutated for every budget;
for `K < 0` and `K == 0` the whole message is identical to the input, but
for `K > 0` the message is rebuilt holding only the `role` and `content`
keys, dropping any other keys.  Amended from the claim's "identical to the
input message, including all of its keys". -/
theorem structured_payload_passthrough (contents : List Item) (K : Int)
    (i p : Nat) (ex : List (String × String))
    (h : contents[i]? = some (Item.msg ⟨"user", Content.parts p, ex⟩)) :
    (K ≤ 0 → (remove_mnemosyne_tags contents K)[i]?
        = some (Item.msg ⟨"user", Content.parts p, ex⟩)) ∧
    (0 < K → (remove_mnemosyne_tags contents K)[i]?
        = some (Item.msg ⟨"user", Content.parts p, []⟩)) := by
  constructor
  · intro hK
    unfold remove_mnemosyne_tags
    rcases lt_or_eq_of_le hK with hlt | heq
    · rw [if_pos hlt]
      exact h
    · rw [if_neg (by omega), if_pos heq]
      rw [List.getElem?_map, h]
      simp [processZero]
  · intro hK
    unfold remove_mnemosyne_tags
    rw [if_neg (by omega), if_neg (by omega)]
    rw [List.getElem?_map, h]
    simp [processPos]

/-- Witness for C3's amended theorem at `exParts` with `K = 0`. -/
theorem structured_payload_passthrough_witness :
    exParts[0]?
      = some (Item.msg ⟨"user", Content.parts 0, [("name", "alice")]⟩) ∧
    (((0 : Int) ≤ 0 → (remove_mnemosyne_tags exParts 0)[0]?
        = some (Item.msg ⟨"user", Content.parts 0, [("name", "alice")]⟩)) ∧
      ((0 : Int) < 0 → (remove_mnemosyne_tags exParts 0)[0]?
        = some (Item.msg ⟨"user", Content.parts 0, []⟩))) :=
  ⟨rfl, structured_payload_passthrough exParts 0 0 0 [("name", "alice")] rfl⟩

/-- Counterexample to C3 as stated: with `K = 1` the list-payload user
message of `exParts` is rebuilt without its `name` key, so the output
message is not identical to the input message. -/
theorem structured_payload_extra_keys_cex :
    remove_mnemosyne_tags exParts 1
      = [Item.msg ⟨"user", Content.parts 0, []⟩] ∧
    remove_mnemosyne_tags exParts 1 ≠ exParts :=
  ⟨rfl, by decide⟩

/-- C9: for `K == 0`, and for `K > 0` whenever the plain-text content
matches at least one block, a string-content user message is replaced by a
newly built entry holding only the `role` and `content` keys (any other
keys, such as `name`, are dropped); for `K > 0` with no matched block the
original entry is kept with all its keys. -/
theorem rebuild_drops_extra_keys (contents : List Item) (K : Int) (i : Nat)
    (t : String) (ex : List (String × String))
    (h : contents[i]? = some (Item.msg ⟨"user", Content.text t, ex⟩)) :
    (K = 0 → (remove_mnemosyne_tags contents K)[i]?
        = some (Item.msg ⟨"user",
            Content.text (regexSub (fun _ => "") t), []⟩)) ∧
    (0 < K → findallBlocks t ≠ [] → (remove_mnemosyne_tags contents K)[i]?
        = some (Item.msg ⟨"user",
            Content.text (regexSub
              (fun b => if (keepOf contents K).contains b then b else "") t),
            []⟩)) ∧
    (0 < K → findallBlocks t = [] → (remove_mnemosyne_tags contents K)[i]?
        = some (Item.msg ⟨"user", Content.text t, ex⟩)) := by
  refine ⟨?_, ?_, ?_⟩
  · intro hK
    subst hK
    unfold remove_mnemosyne_tags
    rw [if_neg (by omega), if_pos rfl, List.getElem?_map, h]
    simp [processZero]
  · intro hK hb
    have hs : regexSearch t = true := (regexSearch_iff t).mpr hb
    unfold remove_mnemosyne_tags
    rw [if_neg (by omega), if_neg (by omega), List.getElem?_map, h]
    simp [processPos, hs]
  · intro hK hb
    have hs : ¬ regexSearch t = true := fun hst => (regexSearch_iff t).mp hst hb
    unfold remove_mnemosyne_tags
    rw [if_neg (by omega), if_neg (by omega), List.getElem?_map, h]
    simp [processPos, hs]

/-- Witness for C9 at `exKeys` with `K = 0`: the rebuilt entry drops the
`name` key. -/
theorem rebuild_drops_extra_keys_witness :
    exKeys[0]? = some (Item.msg ⟨"user",
      Content.text "<Mnemosyne>a</Mnemosyne>", [("name", "bob")]⟩) ∧
    (((0 : Int) = 0 → (remove_mnemosyne_tags exKeys 0)[0]?
        = some (Item.msg ⟨"user",
            Content.text (regexSub (fun _ => "") "<Mnemosyne>a</Mnemosyne>"),
            []⟩)) ∧
      ((0 : Int) < 0 → findallBlocks "<Mnemosyne>a</Mnemosyne>" ≠ [] →
        (remove_mnemosyne_tags exKeys 0)[0]?
          = some (Item.msg ⟨"user",
              Content.text (regexSub
                (fun b => if (keepOf exKeys 0).contains b then b else "")
                "<Mnemosyne>a</Mnemosyne>"), []⟩)) ∧
      ((0 : Int) < 0 → findallBlocks "<Mnemosyne>a</Mnemosyne>" = [] →
        (remove_mnemosyne_tags exKeys 0)[0]?
          = some (Item.msg ⟨"user",
              Content.text "<Mnemosyne>a</Mnemosyne>", [("name", "bob")]⟩))) :=
  ⟨rfl, rebuild_drops_extra_keys exKeys 0 0 "<Mnemosyne>a</Mnemosyne>"
    [("name", "bob")] rfl⟩

/-- C2 (amended): on a migration run that reaches the re-embedding phase,
the final report satisfies `success_count + fail_count = number of exported
records with non-empty content`, and flush is called on the new collection
exactly once.  Amended from the claim's `success + fail == N` over all `N`
exported records: records whose content is empty are skipped by `continue`
before either counter is touched, so they are counted in neither. -/
theorem migration_counts_and_single_flush (env : Env) (d : Int)
    (odp : Option Int)
    (h1 : env.providerReady = true) (h2 : env.currentDim = some d)
    (h3 : 0 < d) (h4 : env.hasCollection = true)
    (h5 : env.getCollectionOk = true)
    (h6 : lookupEmbeddingDim env.schemaFields = some odp)
    (h7 : odp ≠ some d)
    (h8 : env.forceFlag = true) (h9 : env.pluginDataDirOk = true)
    (h10 : env.mkdirOk = true) (h11 : env.exportOk = true)
    (h12 : env.backupOk = true) (h13 : env.dropOk = true)
    (h14 : env.createOk = true) (h15 : env.records ≠ []) :
    ∃ s f, (init_memory_system env).1 = MigResult.migrated s f ∧
      s + f = (env.records.filter (fun r => !(r.content == ""))).length ∧
      (init_memory_system env).2.count StoreCall.flush = 1 := by
  have hd0 : ¬ d ≤ 0 := by omega
  have h7b : decide (odp ≠ some d) = true := decide_eq_true h7
  refine ⟨(reembed env.outcome 0 env.records).success_count,
    (reembed env.outcome 0 env.records).fail_count, ?_, ?_, ?_⟩
  · simp [init_memory_system, h1, h2, hd0, h4, h5, h6, h7b, h8, h9, h10,
      h11, h12, h13, h14, h15]
  · exact reembed_counts env.outcome 0 env.records
  · simp [init_memory_system, h1, h2, hd0, h4, h5, h6, h7b, h8, h9, h10,
      h11, h12, h13, h14, h15, List.count_append, List.count_cons,
      reembed_flush]

/-- Witness for C2's amended theorem at `envMigW` (two records: one
inserted, one failing to re-embed). -/
theorem migration_counts_and_single_flush_witness :
    envMigW.providerReady = true ∧ envMigW.currentDim = some 4 ∧
    (0 : Int) < 4 ∧ envMigW.hasCollection = true ∧
    envMigW.getCollectionOk = true ∧
    lookupEmbeddingDim envMigW.schemaFields = some (some 3) ∧
    some (3 : Int) ≠ some (4 : Int) ∧
    envMigW.forceFlag = true ∧ envMigW.pluginDataDirOk = true ∧
    envMigW.mkdirOk = true ∧ envMigW.exportOk = true ∧
    envMigW.backupOk = true ∧ envMigW.dropOk = true ∧
    envMigW.createOk = true ∧ envMigW.records ≠ [] ∧
    ∃ s f, (init_memory_system envMigW).1 = MigResult.migrated s f ∧
      s + f = (envMigW.records.filter (fun r => !(r.content == ""))).length ∧
      (init_memory_system envMigW).2.count StoreCall.flush = 1 :=
  ⟨rfl, rfl, by decide, rfl, rfl, rfl, by decide, rfl, rfl, rfl, rfl, rfl,
    rfl, rfl, by decide,
    migration_counts_and_single_flush envMigW 4 (some 3) rfl rfl (by decide)
      rfl rfl rfl (by decide) rfl rfl rfl rfl rfl rfl rfl (by decide)⟩

/-- Counterexample to C2 as stated: one exported record with empty content
is skipped by the loop, so `success + fail = 0` while `N = 1` records were
exported; the flush still happens exactly once. -/
theorem migration_counts_empty_content_cex :
    init_memory_system envMigEmpty
      = (MigResult.migrated 0 0,
         [StoreCall.drop, StoreCall.create, StoreCall.flush]) ∧
    envMigEmpty.records.length = 1 ∧
    0 + 0 ≠ envMigEmpty.records.length :=
  ⟨rfl, rfl, by decide⟩

/-- C4: when writing the backup artifact fails, the migration aborts
reporting the backup failure with an empty store-call trace — in
particular zero calls to drop the old collection, and no subsequent create
or insert, leaving the pre-existing collection untouched. -/
theorem backup_failure_no_drop (env : Env) (d : Int) (odp : Option Int)
    (h1 : env.providerReady = true) (h2 : env.currentDim = some d)
    (h3 : 0 < d) (h4 : env.hasCollection = true)
    (h5 : env.getCollectionOk = true)
    (h6 : lookupEmbeddingDim env.schemaFields = some odp)
    (h7 : odp ≠ some d)
    (h8 : env.forceFlag = true) (h9 : env.pluginDataDirOk = true)
    (h10 : env.mkdirOk = true) (h11 : env.exportOk = true)
    (h12 : env.backupOk = false) :
    init_memory_system env = (MigResult.backupFail, []) ∧
    (init_memory_system env).2.count StoreCall.drop = 0 := by
  have hd0 : ¬ d ≤ 0 := by omega
  have h7b : decide (odp ≠ some d) = true := decide_eq_true h7
  have hmain : init_memory_system env = (MigResult.backupFail, []) := by
    simp [init_memory_system, h1, h2, hd0, h4, h5, h6, h7b, h8, h9, h10,
      h11, h12]
  exact ⟨hmain, by simp [hmain]⟩

/-- Witness for C4 at `envBackupFail`. -/
theorem backup_failure_no_drop_witness :
    envBackupFail.providerReady = true ∧
    envBackupFail.currentDim = some 4 ∧ (0 : Int) < 4 ∧
    envBackupFail.hasCollection = true ∧
    envBackupFail.getCollectionOk = true ∧
    lookupEmbeddingDim envBackupFail.schemaFields = some (some 3) ∧
    some (3 : Int) ≠ some (4 : Int) ∧
    envBackupFail.forceFlag = true ∧
    envBackupFail.pluginDataDirOk = true ∧
    envBackupFail.mkdirOk = true ∧ envBackupFail.exportOk = true ∧
    envBackupFail.backupOk = false ∧
    (init_memory_system envBackupFail = (MigResult.backupFail, []) ∧
      (init_memory_system envBackupFail).2.count StoreCall.drop = 0) :=
  ⟨rfl, rfl, by decide, rfl, rfl, rfl, by decide, rfl, rfl, rfl, rfl, rfl,
    backup_failure_no_drop envBackupFail 4 (some 3) rfl rfl (by decide) rfl
      rfl rfl (by decide) rfl rfl rfl rfl rfl⟩

/-- C5: when the stored collection's vector width equals the embedding
provider's current width, the run terminates successfully reporting that no
migration is needed and the store-mutating trace is empty: no drop, no
create, no insert. -/
theorem dims_equal_no_mutating_calls (env : Env) (d : Int)
    (h1 : env.providerReady = true) (h2 : env.currentDim = some d)
    (h3 : 0 < d) (h4 : env.hasCollection = true)
    (h5 : env.getCollectionOk = true)
    (h6 : lookupEmbeddingDim env.schemaFields = some (some d)) :
    init_memory_system env = (MigResult.noMigrationNeeded, []) := by
  have hd0 : ¬ d ≤ 0 := by omega
  have hnm : decide (some d ≠ some d) = false := by simp
  simp [init_memory_system, h1, h2, hd0, h4, h5, h6, hnm]

/-- Witness for C5 at `envDimsEqual`. -/
theorem dims_equal_no_mutating_calls_witness :
    envDimsEqual.providerReady = true ∧
    envDimsEqual.currentDim = some 4 ∧ (0 : Int) < 4 ∧
    envDimsEqual.hasCollection = true ∧
    envDimsEqual.getCollectionOk = true ∧
    lookupEmbeddingDim envDimsEqual.schemaFields = some (some 4) ∧
    init_memory_system envDimsEqual = (MigResult.noMigrationNeeded, []) :=
  ⟨rfl, rfl, by decide, rfl, rfl, rfl,
    dims_equal_no_mutating_calls envDimsEqual 4 rfl rfl (by decide) rfl rfl
      rfl⟩

/-- C6 (amended): on a fetched set below the fetch ceiling and a validated
limit, the listing operation returns a permutation of the fetched records
sorted descending by `create_time` — records whose `create_time` is missing
or `None` are keyed as timestamp 0, never raising — truncated to the first
`limit` records; the sort is stable, so any pair of records already in
weakly descending key order in the fetched set (in particular any pair of
records with equal `create_time` keys) keeps its relative order.  Amended
from the claim's "strictly descending": tied timestamps are allowed, kept
in their fetch order, so the order is descending but not strict. -/
theorem list_latest_sorted_desc (fetched_records : List MemRecord)
    (limit : Nat) (_hceil : fetched_records.length < MAX_TOTAL_FETCH_RECORDS)
    (_hlo : 1 ≤ limit) (_hhi : limit ≤ 50) :
    ∃ full : List MemRecord,
      full.Perm fetched_records ∧
      List.Pairwise byCreateTimeDesc full ∧
      (∀ a b : MemRecord, byCreateTimeDesc a b →
        List.Sublist [a, b] fetched_records → List.Sublist [a, b] full) ∧
      list_latest fetched_records limit = full.take limit ∧
      ∀ r ∈ fetched_records, r.create_time = none → sortKey r = 0 := by
  refine ⟨List.insertionSort byCreateTimeDesc fetched_records,
    List.perm_insertionSort byCreateTimeDesc fetched_records,
    List.sorted_insertionSort byCreateTimeDesc fetched_records,
    fun a b hab h => List.pair_sublist_insertionSort hab h,
    rfl, ?_⟩
  intro r _ hr
  simp [sortKey, hr]

/-- Witness for C6's amended theorem on a two-record fetch. -/
theorem list_latest_sorted_desc_witness :
    ([⟨some 5, "a", 1⟩, ⟨none, "b", 2⟩] : List MemRecord).length
        < MAX_TOTAL_FETCH_RECORDS ∧
    1 ≤ 1 ∧ 1 ≤ 50 ∧
    ∃ full : List MemRecord,
      full.Perm [⟨some 5, "a", 1⟩, ⟨none, "b", 2⟩] ∧
      List.Pairwise byCreateTimeDesc full ∧
      (∀ a b : MemRecord, byCreateTimeDesc a b →
        List.Sublist [a, b] [⟨some 5, "a", 1⟩, ⟨none, "b", 2⟩] →
        List.Sublist [a, b] full) ∧
      list_latest [⟨some 5, "a", 1⟩, ⟨none, "b", 2⟩] 1 = full.take 1 ∧
      ∀ r ∈ ([⟨some 5, "a", 1⟩, ⟨none, "b", 2⟩] : List MemRecord),
        r.create_time = none → sortKey r = 0 :=
  ⟨by decide, by decide, by decide,
    list_latest_sorted_desc [⟨some 5, "a", 1⟩, ⟨none, "b", 2⟩] 1 (by decide)
      (by decide) (by decide)⟩

/-- Counterexample to C6 as stated: two records share `create_time = 5`, so
the returned list is not strictly descending by `create_time`. -/
theorem list_latest_not_strict_cex :
    list_latest [⟨some 5, "a", 1⟩, ⟨some 5, "b", 2⟩] 2
      = [⟨some 5, "a", 1⟩, ⟨some 5, "b", 2⟩] ∧
    ¬ List.Pairwise (fun a b => sortKey b < sortKey a)
        (list_latest [⟨some 5, "a", 1⟩, ⟨some 5, "b", 2⟩] 2) := by
  constructor
  · rfl
  · intro hp
    have h2 : list_latest [⟨some 5, "a", 1⟩, ⟨some 5, "b", 2⟩] 2
        = [⟨some 5, "a", 1⟩, ⟨some 5, "b", 2⟩] := rfl
    rw [h2] at hp
    have h3 := (List.pairwise_cons.mp hp).1 ⟨some 5, "b", 2⟩ (by simp)
    simp [sortKey] at h3

/-- C8: for a session id absent from the tracker's state map,
`get_summary_time` returns the sentinel 0 and `update_summary_time` is a
no-op leaving the state map unchanged. -/
theorem unknown_session_sentinel_noop (m : ConversationContextManager)
    (session_id : String) (now : Int)
    (h : m.conversations.lookup session_id = none) :
    get_summary_time m session_id = 0 ∧
    update_summary_time m session_id now = m := by
  constructor
  · simp [get_summary_time, h]
  · simp [update_summary_time, h]

/-- Witness for C8 on the empty tracker. -/
theorem unknown_session_sentinel_noop_witness :
    (ConversationContextManager.mk []).conversations.lookup "s" = none ∧
    (get_summary_time ⟨[]⟩ "s" = 0 ∧ update_summary_time ⟨[]⟩ "s" 5 = ⟨[]⟩) :=
  ⟨rfl, unknown_session_sentinel_noop ⟨[]⟩ "s" 5 rfl⟩

/-- C10: `remove_system_content` returns the empty list for every non-list
input regardless of the budget, and returns a list input unchanged for
every negative budget. -/
theorem remove_system_content_guards :
    (∀ (n : Nat) (K : Int),
      remove_system_content (ContentsArg.notList n) K = []) ∧
    (∀ (l : List Item) (K : Int), K < 0 →
      remove_system_content (ContentsArg.ofList l) K = l) := by
  constructor
  · intro n K
    rfl
  · intro l K hK
    exact if_pos hK

/-- Witness for C10. -/
theorem remove_system_content_guards_witness :
    remove_system_content (ContentsArg.notList 0) 7 = [] ∧
    (-1 : Int) < 0 ∧
    remove_system_content (ContentsArg.ofList [Item.nondict 3]) (-1)
      = [Item.nondict 3] :=
  ⟨remove_system_content_guards.1 0 7, by decide,
    remove_system_content_guards.2 [Item.nondict 3] (-1) (by decide)⟩

end Mnemosyne
